import Mathlib

/-!
# Verification of the expression evaluator (`Expression.h`)

A shallow embedding of the arithmetic-expression evaluator
(`src/Expression.h` of `emezav/udc_expressionevaluator`): a tokenizer, a
shunting-yard infix-to-RPN converter, and an RPN evaluator over IEEE-754
doubles, with variables, custom unary functions, and a unary negation
operator `~`.

Modelling conventions:

* C++ `double` values are modelled by `Val`: an exact rational together
  with the special values `+inf`, `-inf` and `nan`.  Every numeric value
  that any theorem below actually exercises is a dyadic rational, hence
  exactly representable both as a `double` and as a `ℚ`; the arithmetic
  on the special values follows the IEEE-754 rules the C++ operators and
  `pow` implement.  The one place the exact-rational model cannot follow
  `double` is results that are irrational in the reals (e.g. `pow` at a
  non-integer exponent with positive base, `sqrt` of a non-square,
  values of the transcendental library functions away from their exact
  points): those are mapped to `Val.nan` and are exercised by no theorem
  in this file.
* `std::string` is modelled by `String` (token values) and by its
  character list (`List Char`) where the C++ code walks a string by
  position.
* `strtod` is modelled for the decimal forms the tokenizer can produce
  (optional leading whitespace, optional sign, digits with an optional
  fraction part, an optional exponent part); the hexadecimal and
  `inf`/`nan` spellings accepted by C `strtod`, and the overflow path,
  occur in no claim input.
-/

set_option autoImplicit false
set_option maxRecDepth 8000

attribute [local semireducible] Rat.mul Rat.add Rat.sub Rat.inv Rat.ofScientific

namespace ExprEval

/-- Model of a C++ `double`: exact rationals plus the IEEE special values. -/
inductive Val where
  | num (q : ℚ)
  | posInf
  | negInf
  | nan
  deriving DecidableEq, Repr

/-- IEEE addition (`a + b` on doubles). -/
def vadd : Val → Val → Val
  | .num a, .num b => .num (a + b)
  | .num _, v => v
  | .posInf, .num _ => .posInf
  | .posInf, .posInf => .posInf
  | .posInf, _ => .nan
  | .negInf, .num _ => .negInf
  | .negInf, .negInf => .negInf
  | .negInf, _ => .nan
  | .nan, _ => .nan

/-- IEEE subtraction (`a - b` on doubles). -/
def vsub : Val → Val → Val
  | .num a, .num b => .num (a - b)
  | .num _, .posInf => .negInf
  | .num _, .negInf => .posInf
  | .num _, .nan => .nan
  | .posInf, .num _ => .posInf
  | .posInf, .negInf => .posInf
  | .posInf, _ => .nan
  | .negInf, .num _ => .negInf
  | .negInf, .posInf => .negInf
  | .negInf, _ => .nan
  | .nan, _ => .nan

/-- IEEE multiplication (`a * b` on doubles).  `0 * ±inf = nan`. -/
def vmul : Val → Val → Val
  | .num a, .num b => .num (a * b)
  | .num a, .posInf => if 0 < a then .posInf else if a < 0 then .negInf else .nan
  | .num a, .negInf => if 0 < a then .negInf else if a < 0 then .posInf else .nan
  | .num _, .nan => .nan
  | .posInf, .num b => if 0 < b then .posInf else if b < 0 then .negInf else .nan
  | .posInf, .posInf => .posInf
  | .posInf, .negInf => .negInf
  | .posInf, .nan => .nan
  | .negInf, .num b => if 0 < b then .negInf else if b < 0 then .posInf else .nan
  | .negInf, .posInf => .negInf
  | .negInf, .negInf => .posInf
  | .negInf, .nan => .nan
  | .nan, _ => .nan

/-- IEEE division (`a / b` on doubles).  Rationals carry no signed zero,
so `x / 0` takes the sign of `x` alone and `x / ±inf` is the unsigned
zero `num 0`; no theorem below exercises division. -/
def vdiv : Val → Val → Val
  | .num a, .num b =>
      if b = 0 then (if a = 0 then .nan else if 0 < a then .posInf else .negInf)
      else .num (a / b)
  | .num _, .posInf => .num 0
  | .num _, .negInf => .num 0
  | .num _, .nan => .nan
  | .posInf, .num b => if 0 ≤ b then .posInf else .negInf
  | .posInf, _ => .nan
  | .negInf, .num b => if 0 ≤ b then .negInf else .posInf
  | .negInf, _ => .nan
  | .nan, _ => .nan

/-- C `pow(a, b)` on the `Val` model, following the C99 special cases:
`pow(x, 0) = 1` and `pow(1, y) = 1` even for `nan` arguments, `nan`
otherwise propagates, integer exponents are computed exactly, and a
negative base with a non-integer exponent yields `nan`.  A positive
non-one base with a non-integer finite exponent has an irrational real
value; the model returns `nan` there (exercised by no theorem). -/
def vpow : Val → Val → Val
  | x, .num b =>
      if b = 0 then .num 1
      else match x with
        | .num a =>
            if a = 1 then .num 1
            else if b.den = 1 then
              (if a = 0 then (if 0 < b then .num 0 else .posInf) else .num (a ^ b.num))
            else
              (if a = 0 then (if 0 < b then .num 0 else .posInf)
               else if a < 0 then .nan
               else .nan)
        | .posInf => if 0 < b then .posInf else .num 0
        | .negInf =>
            if 0 < b then (if b.den = 1 ∧ b.num % 2 = 1 then .negInf else .posInf)
            else .num 0
        | .nan => .nan
  | .num a, .posInf =>
      if a = 1 ∨ a = -1 then .num 1 else if -1 < a ∧ a < 1 then .num 0 else .posInf
  | .num a, .negInf =>
      if a = 1 ∨ a = -1 then .num 1 else if -1 < a ∧ a < 1 then .posInf else .num 0
  | .posInf, .posInf => .posInf
  | .posInf, .negInf => .num 0
  | .negInf, .posInf => .posInf
  | .negInf, .negInf => .num 0
  | .nan, .posInf => .nan
  | .nan, .negInf => .nan
  | x, .nan => if x = .num 1 then .num 1 else .nan

/-- `Expression::calculate`: dispatch of the binary operators; any other
operator string yields `NAN`. -/
def calculate (a b : Val) (op : String) : Val :=
  if op = "+" then vadd a b
  else if op = "-" then vsub a b
  else if op = "*" then vmul a b
  else if op = "/" then vdiv a b
  else if op = "^" then vpow a b
  else .nan

/-- `Expression::calculateUnary`: `~` is `-1.0 * x`; any other operator
string yields `NAN`. -/
def calculateUnary (x : Val) (op : String) : Val :=
  if op = "~" then vmul (.num (-1)) x
  else .nan

/-! ## The `strtod` model and `getNumber` -/

/-- The characters C `isspace` accepts in the default locale. -/
def isSpaceChar (c : Char) : Bool :=
  c = ' ' ∨ c = '\t' ∨ c = '\n' ∨ c = '\x0b' ∨ c = '\x0c' ∨ c = '\r'

/-- Consume a run of decimal digits, accumulating their value and count. -/
def parseDigits : List Char → ℕ → ℕ → ℕ × ℕ × List Char
  | [], acc, n => (acc, n, [])
  | c :: cs, acc, n =>
      if c.isDigit then parseDigits cs (10 * acc + (c.toNat - '0'.toNat)) (n + 1)
      else (acc, n, c :: cs)

/-- Model of C `strtod` on decimal inputs: skip leading whitespace, an
optional sign, digits with an optional fraction part, an optional
exponent part.  Returns the parsed value and the unconsumed suffix; if
no conversion is performed the suffix is the whole input (C resets
`endptr` to the start). -/
def strtodModel (cs : List Char) : ℚ × List Char :=
  let ws := cs.dropWhile isSpaceChar
  let signAndRest : ℚ × List Char :=
    match ws with
    | '-' :: t => (-1, t)
    | '+' :: t => (1, t)
    | _ => (1, ws)
  let sgn := signAndRest.1
  let afterInt := parseDigits signAndRest.2 0 0
  let i := afterInt.1
  let ni := afterInt.2.1
  let afterFrac : ℕ × ℕ × List Char :=
    match afterInt.2.2 with
    | '.' :: t => parseDigits t 0 0
    | l => (0, 0, l)
  let f := afterFrac.1
  let nf := afterFrac.2.1
  let r2 := afterFrac.2.2
  if ni + nf = 0 then (0, cs)
  else
    let mant : ℚ := sgn * ((i : ℚ) + (f : ℚ) / 10 ^ nf)
    match r2 with
    | c :: t =>
        if c = 'e' ∨ c = 'E' then
          let esignAndRest : Bool × List Char :=
            match t with
            | '-' :: t2 => (true, t2)
            | '+' :: t2 => (false, t2)
            | _ => (false, t)
          let afterExp := parseDigits esignAndRest.2 0 0
          if afterExp.2.1 = 0 then (mant, r2)
          else (if esignAndRest.1 then mant / 10 ^ afterExp.1 else mant * 10 ^ afterExp.1,
                afterExp.2.2)
        else (mant, c :: t)
    | [] => (mant, [])

/-- `Expression::getNumber`: a leading `~` is first rewritten to `-`,
then `strtod` must consume the entire string (`*p == 0`). -/
def getNumber (s : String) : Option ℚ :=
  let cs :=
    match s.data with
    | '~' :: t => '-' :: t
    | l => l
  let r := strtodModel cs
  if r.2 = [] then some r.1 else none

/-! ## `numberToString`: default `ostringstream` formatting (`%g`, 6
significant digits) -/

/-- `10 ^ z` as an exact rational, with the natural-number power at the
leaf (which the kernel evaluates directly). -/
def pow10 (z : ℤ) : ℚ :=
  if 0 ≤ z then ((10 ^ z.toNat : ℕ) : ℚ) else ((10 ^ (-z).toNat : ℕ) : ℚ)⁻¹

/-- Upward search loop for `decExp` (`1 ≤ q`): walk the candidate
exponent `X` up, carrying `p = 10 ^ X`, until `q < 10 * p`. -/
def decExpUp : ℕ → ℤ → ℚ → ℚ → ℤ
  | 0, X, _, _ => X
  | fuel + 1, X, p, q => if q < p * 10 then X else decExpUp fuel (X + 1) (p * 10) q

/-- Downward search loop for `decExp` (`0 < q < 1`): walk the candidate
exponent `X` down, carrying `p = 10 ^ X`, until `p ≤ q`. -/
def decExpDown : ℕ → ℤ → ℚ → ℚ → ℤ
  | 0, X, _, _ => X
  | fuel + 1, X, p, q => if p ≤ q then X else decExpDown fuel (X - 1) (p / 10) q

/-- Decimal exponent of a positive rational: the `X` with
`10 ^ X ≤ q < 10 ^ (X + 1)`, found by bounded search (340 steps cover
every finite `double`, whose decimal exponent lies within ±324 — hence
every value the evaluator can hand to the formatter). -/
def decExp (q : ℚ) : ℤ :=
  if 1 ≤ q then decExpUp 340 0 1 q else decExpDown 340 (-1) (1 / 10 : ℚ) q

/-- Round a nonnegative rational to the nearest natural, ties to even
(the IEEE default rounding used by the C library formatter). -/
def roundHalfEven (q : ℚ) : ℕ :=
  let n := ⌊q⌋.toNat
  let r := q - (n : ℚ)
  if r < 1 / 2 then n
  else if 1 / 2 < r then n + 1
  else if n % 2 = 0 then n else n + 1

/-- Round a positive rational to 6 significant digits: returns the digit
block `D` (with `10^5 ≤ D < 10^6`) and the decimal exponent. -/
def sixSig (q : ℚ) : ℕ × ℤ :=
  let X := decExp q
  let D := roundHalfEven (q * pow10 (5 - X))
  if 10 ^ 6 ≤ D then (D / 10, X + 1) else (D, X)

/-- The decimal digit `d` (0–9) as a character. -/
def digitChar (d : ℕ) : Char := Char.ofNat ('0'.toNat + d)

/-- The six decimal digits of `D` (`10^5 ≤ D < 10^6`), most significant
first, by direct division. -/
def sixDigitChars (D : ℕ) : List Char :=
  [digitChar (D / 100000 % 10), digitChar (D / 10000 % 10),
   digitChar (D / 1000 % 10), digitChar (D / 100 % 10),
   digitChar (D / 10 % 10), digitChar (D % 10)]

/-- Decimal digits of a `%g` exponent, padded to at least two digits as
the C library does; at most four digits can occur for a double. -/
def expDigitChars (n : ℕ) : List Char :=
  if n < 10 then ['0', digitChar n]
  else if n < 100 then [digitChar (n / 10), digitChar (n % 10)]
  else if n < 1000 then
    [digitChar (n / 100), digitChar (n / 10 % 10), digitChar (n % 10)]
  else
    [digitChar (n / 1000 % 10), digitChar (n / 100 % 10),
     digitChar (n / 10 % 10), digitChar (n % 10)]

/-- Drop trailing `'0'` characters. -/
def stripZeros (s : List Char) : List Char :=
  (s.reverse.dropWhile (· = '0')).reverse

/-- Format a positive rational the way `operator<<(ostream, double)`
does with the default settings, i.e. `%g` with precision 6: round to 6
significant digits, use fixed notation when the decimal exponent `X`
satisfies `-4 ≤ X < 6` and scientific notation otherwise, and strip
trailing zeros (and a dangling decimal point). -/
def fmtG6pos (q : ℚ) : List Char :=
  let p := sixSig q
  let D := p.1
  let X := p.2
  let digs := sixDigitChars D
  if -4 ≤ X ∧ X < 6 then
    if 0 ≤ X then
      let ip := digs.take (X.toNat + 1)
      let fp := stripZeros (digs.drop (X.toNat + 1))
      ip ++ (if fp = [] then [] else '.' :: fp)
    else
      '0' :: '.' :: (List.replicate ((-X).toNat - 1) '0' ++ stripZeros digs)
  else
    let fp := stripZeros digs.tail
    (digs.take 1 ++ (if fp = [] then [] else '.' :: fp))
      ++ 'e' :: (if X < 0 then '-' else '+') :: expDigitChars X.natAbs

/-- `Expression::numberToString`: `ostringstream << val` with default
formatting.  The stream prints `nan`, `inf` and `-inf` for the special
values. -/
def numberToString : Val → String
  | .num q =>
      if q = 0 then "0"
      else if q < 0 then String.mk ('-' :: fmtG6pos (-q))
      else String.mk (fmtG6pos q)
  | .posInf => "inf"
  | .negInf => "-inf"
  | .nan => "nan"

/-! ## Symbol classifier -/

/-- `Expression::isOperator`. -/
def isOperator (s : String) : Bool :=
  s = "+" ∨ s = "-" ∨ s = "*" ∨ s = "/" ∨ s = "^" ∨ s = "~"

/-- `Expression::isLeftAssociative`. -/
def isLeftAssociative (s : String) : Bool :=
  s = "+" ∨ s = "-" ∨ s = "*" ∨ s = "/"

/-- `Expression::isBinaryOperator`. -/
def isBinaryOperator (s : String) : Bool :=
  s = "+" ∨ s = "-" ∨ s = "*" ∨ s = "/" ∨ s = "^"

/-- `Expression::isUnaryOperator`. -/
def isUnaryOperator (s : String) : Bool :=
  s = "~"

/-- `Expression::precedence`: 1 for `+ -`, 2 for `* /`, 3 for `^ ~`,
0 for anything else. -/
def precedence (op : String) : ℕ :=
  if op = "+" ∨ op = "-" then 1
  else if op = "*" ∨ op = "/" then 2
  else if op = "^" ∨ op = "~" then 3
  else 0

/-- `struct Variable`: a named `double`. -/
structure Variable where
  name : String
  val : Val
  deriving DecidableEq, Repr

/-- `struct CustomFunction`: a named unary function on doubles. -/
structure CustomFunction where
  name : String
  f : Val → Val

/-- The scan of `Expression::isVariable` over the variable list: the
first entry matching the token by name yields its value; an entry whose
`~`-prefixed name matches the token yields `-1.0 *` its value. -/
def lookupVar (name : String) : List Variable → Option Val
  | [] => none
  | v :: rest =>
      if v.name = name then some v.val
      else if "~" ++ v.name = name then some (vmul (.num (-1)) v.val)
      else lookupVar name rest

/-- `Expression::isVariable`: operators are rejected up front, then the
variable list is scanned (`lookupVar`). -/
def isVariable (name : String) (vars : List Variable) : Option Val :=
  if isOperator name then none
  else lookupVar name vars

/-- `Expression::isFunction`: first name match in the function table. -/
def isFunction (name : String) : List CustomFunction → Option (Val → Val)
  | [] => none
  | g :: rest => if g.name = name then some g.f else isFunction name rest

/-! ### Default functions

The transcendental library functions (`sin`, `cos`, `tan`, `log`,
`log10`, `exp`) take irrational values away from their special points
and hence cannot be followed by the exact-rational model; away from the
exactly-representable points listed case by case below they are
modelled as `nan`.  No theorem in this file applies a default function
to a value: only the function *names* participate in any claim
(classification during conversion and evaluation). -/

/-- Model of C `sin`: exact at `0`; `sin(±inf) = nan`. -/
def vsin : Val → Val
  | .num q => if q = 0 then .num 0 else .nan
  | _ => .nan

/-- Model of C `cos`: exact at `0`; `cos(±inf) = nan`. -/
def vcos : Val → Val
  | .num q => if q = 0 then .num 1 else .nan
  | _ => .nan

/-- Model of C `tan`: exact at `0`; `tan(±inf) = nan`. -/
def vtan : Val → Val
  | .num q => if q = 0 then .num 0 else .nan
  | _ => .nan

/-- Model of C `log` (natural logarithm): exact at `1`,
`log(0) = -inf`, negative arguments give `nan`, `log(+inf) = +inf`. -/
def vln : Val → Val
  | .num q => if q = 1 then .num 0 else if q = 0 then .negInf else .nan
  | .posInf => .posInf
  | _ => .nan

/-- Does the positive rational equal an integer power of 10?  Used for
the exact points of the base-10 logarithm. -/
def qLog10? (q : ℚ) : Option ℤ :=
  if q.den = 1 then
    (if 0 < q.num ∧ 10 ^ Nat.log 10 q.num.toNat = q.num.toNat
     then some (Nat.log 10 q.num.toNat) else none)
  else if q.num = 1 then
    (if 10 ^ Nat.log 10 q.den = q.den then some (-(Nat.log 10 q.den : ℤ)) else none)
  else none

/-- Model of C `log10`: exact at integer powers of 10, `log10(0) = -inf`,
negative arguments give `nan`, `log10(+inf) = +inf`. -/
def vlog10 : Val → Val
  | .num q =>
      if q = 0 then .negInf
      else if q < 0 then .nan
      else match qLog10? q with
        | some k => .num (k : ℚ)
        | none => .nan
  | .posInf => .posInf
  | _ => .nan

/-- Model of C `exp`: exact at `0`; `exp(-inf) = 0`, `exp(+inf) = +inf`. -/
def vexp : Val → Val
  | .num q => if q = 0 then .num 1 else .nan
  | .posInf => .posInf
  | .negInf => .num 0
  | .nan => .nan

/-- Model of C `sqrt`: exact on squares of rationals, `nan` on negative
arguments, `nan` on irrational square roots (exercised by no theorem). -/
def vsqrt : Val → Val
  | .num q =>
      if q < 0 then .nan
      else if (Nat.sqrt q.num.toNat : ℤ) ^ 2 = q.num ∧ Nat.sqrt q.den ^ 2 = q.den
        then .num ((Nat.sqrt q.num.toNat : ℚ) / (Nat.sqrt q.den : ℚ))
        else .nan
  | .posInf => .posInf
  | _ => .nan

/-- Model of C `abs` on doubles (exact). -/
def vabs : Val → Val
  | .num q => .num |q|
  | .nan => .nan
  | _ => .posInf

/-- `Expression::defaultFunctions`: the eight default functions, in
declaration order (first match wins on lookup). -/
def defaultFunctions : List CustomFunction :=
  [⟨"sin", vsin⟩, ⟨"cos", vcos⟩, ⟨"tan", vtan⟩, ⟨"ln", vln⟩,
   ⟨"log", vlog10⟩, ⟨"exp", vexp⟩, ⟨"sqrt", vsqrt⟩, ⟨"abs", vabs⟩]

/-- The exact value of the C++ `double` initialized from the `float`
literal `3.141592654f` (the `float` nearest 3.141592654, widened
exactly): `13176795 * 2 ^ (-22)`. -/
def piVal : ℚ := 13176795 / 4194304

/-- The exact value of the C++ `double` initialized from the `float`
literal `2.718281828f`: `2850325 * 2 ^ (-20)`. -/
def eVal : ℚ := 2850325 / 1048576

/-- `Expression::defaultVariables`: the reserved constants `pi` and `e`. -/
def defaultVariables : List Variable :=
  [⟨"pi", .num piVal⟩, ⟨"e", .num eVal⟩]

/-! ## Tokenizer -/

/-- The seven split characters of `getTokens`
(`text.find_first_of("()+-*/^~", pos)`). -/
def isSpecialChar (c : Char) : Bool :=
  c = '(' ∨ c = ')' ∨ c = '+' ∨ c = '-' ∨ c = '*' ∨ c = '/' ∨ c = '^' ∨ c = '~'

/-- The counter update of one `checkParenthesis` loop iteration:
`(` counts `+1`, `)` counts `-1`, any other character `0`. -/
def parenDelta (c : Char) : ℤ :=
  if c = '(' then 1 else if c = ')' then -1 else 0

/-- The loop of `Expression::checkParenthesis`: scan left to right,
counting `(` up and `)` down, stopping as soon as the counter goes
negative; the first argument is the running counter. -/
def scanParen : ℤ → List Char → ℤ
  | cnt, [] => cnt
  | cnt, c :: cs => if cnt < 0 then cnt else scanParen (cnt + parenDelta c) cs

/-- `Expression::checkParenthesis`: balanced iff the scan ends at 0. -/
def checkParenthesis (text : String) : Bool :=
  scanParen 0 text.data = 0

/-- The splitting loop of `Expression::getTokens`: each special
character becomes its own one-character token, each nonempty maximal
run between special characters becomes one token.  The second argument
accumulates the current run in reverse. -/
def tokenizeGo : List Char → List Char → List String
  | [], run => if run.isEmpty then [] else [String.mk run.reverse]
  | c :: cs, run =>
      if isSpecialChar c then
        (if run.isEmpty then [] else [String.mk run.reverse])
          ++ String.mk [c] :: tokenizeGo cs []
      else tokenizeGo cs (c :: run)

/-- `Expression::getTokens`: empty if the parenthesis check fails,
otherwise the split of the text. -/
def getTokens (text : String) : List String :=
  if checkParenthesis text then tokenizeGo text.data [] else []

/-! ## Shunting-yard converter -/

/-- The operator-case inner `while` loop of `Expression::getRPN`: pop
operators `o2` from the stack (list head = stack top) while the top is
not `(` and has greater precedence than `o1`, or equal precedence with
`o1` left-associative.  Returns the popped operators in pop order and
the remaining stack. -/
def popOperators (o1 : String) : List String → List String × List String
  | [] => ([], [])
  | o2 :: rest =>
      if o2 ≠ "(" ∧ (precedence o2 > precedence o1
          ∨ (precedence o2 = precedence o1 ∧ isLeftAssociative o1)) then
        let p := popOperators o1 rest
        (o2 :: p.1, p.2)
      else ([], o2 :: rest)

/-- The right-parenthesis inner `while` loop of `Expression::getRPN`:
pop operators to the output until the stack is empty or its top is `(`. -/
def popUntilParen : List String → List String × List String
  | [] => ([], [])
  | o :: rest =>
      if o ≠ "(" then
        let p := popUntilParen rest
        (o :: p.1, p.2)
      else ([], o :: rest)

/-- The final drain loop of `Expression::getRPN`: pop everything,
appending to the output all but `(`. -/
def drainStack : List String → List String
  | [] => []
  | op :: rest => if op ≠ "(" then op :: drainStack rest else drainStack rest

/-- The token loop of `Expression::getRPN` (shunting yard).  Arguments:
remaining input, output queue so far, operator stack (head = top).
Dispatch order is that of the source: number, function, operator, `(`,
`)`, else variable. -/
def rpnGo (funcs : List CustomFunction) :
    List String → List String → List String → List String
  | [], out, ops => out ++ drainStack ops
  | token :: rest, out, ops =>
      match getNumber token with
      | some val => rpnGo funcs rest (out ++ [numberToString (.num val)]) ops
      | none =>
        match isFunction token funcs with
        | some _ => rpnGo funcs rest out (token :: ops)
        | none =>
          if isOperator token then
            let p := popOperators token ops
            rpnGo funcs rest (out ++ p.1) (token :: p.2)
          else if token = "(" then
            rpnGo funcs rest out (token :: ops)
          else if token = ")" then
            let p := popUntilParen ops
            let ops' :=
              match p.2 with
              | "(" :: r => r
              | l => l
            match ops' with
            | top :: r =>
                if (isFunction top funcs).isSome then
                  rpnGo funcs rest (out ++ p.1 ++ [top]) r
                else rpnGo funcs rest (out ++ p.1) ops'
            | [] => rpnGo funcs rest (out ++ p.1) ops'
          else rpnGo funcs rest (out ++ [token]) ops

/-- `Expression::getRPN`. -/
def getRPN (funcs : List CustomFunction) (tokens : List String) : List String :=
  rpnGo funcs tokens [] []

/-! ## RPN evaluator -/

/-- The body of the token loop of `Expression::evalRPN`, acting on the
value stack (list head = top).  `none` models the early `return result`
(with `result` still `NAN`) when a function token meets an empty stack;
`some` is the updated stack, unchanged for the silently-skipped cases
(operator with too few operands, unresolved identifier). -/
def evalStep (funcs : List CustomFunction) (vars : List Variable)
    (item : String) (values : List Val) : Option (List Val) :=
  match getNumber item with
  | some val => some (.num val :: values)
  | none =>
    match isFunction item funcs with
    | some f =>
        match values with
        | [] => none
        | v :: rest => some (f v :: rest)
    | none =>
      if isOperator item then
        if isBinaryOperator item then
          match values with
          | b :: a :: rest => some (calculate a b item :: rest)
          | _ => some values
        else if isUnaryOperator item then
          match values with
          | v :: rest => some (calculateUnary v item :: rest)
          | [] => some values
        else some values
      else
        match isVariable item vars with
        | some val => some (val :: values)
        | none => some values

/-- The token loop plus final check of `Expression::evalRPN`: after the
pass, the result is the single stack value if the stack holds exactly
one, `NAN` otherwise; an aborted pass yields `NAN`. -/
def evalGo (funcs : List CustomFunction) (vars : List Variable) :
    List String → List Val → Val
  | [], values =>
      match values with
      | [v] => v
      | _ => .nan
  | item :: rest, values =>
      match evalStep funcs vars item values with
      | none => .nan
      | some values' => evalGo funcs vars rest values'

/-- The final block of `Expression::evalRPN` (lines 720–726): the
popped top of the value stack when it holds exactly one value, `NAN`
otherwise. -/
def finalResult : List Val → Val
  | [v] => v
  | _ => .nan

/-- The value stack left by the token loop of `Expression::evalRPN`,
`none` if the pass aborted early (function on an empty stack). -/
def runStack (funcs : List CustomFunction) (vars : List Variable) :
    List String → List Val → Option (List Val)
  | [], values => some values
  | item :: rest, values =>
      match evalStep funcs vars item values with
      | none => none
      | some values' => runStack funcs vars rest values'

/-- `Expression::evalRPN`. -/
def evalRPN (funcs : List CustomFunction) (rpn : List String)
    (vars : List Variable) : Val :=
  evalGo funcs vars rpn []

/-! ## Expression facade -/

/-- The state a constructed `Expression` carries (the cached printable
forms, space-joined token strings, are omitted: no claim concerns them). -/
structure Expression where
  text : String
  functions : List CustomFunction
  tokens : List String
  rpn : List String
  balanced : Bool

/-- The two-argument `Expression` constructor: remove the spaces, split
into tokens (empty on unbalanced parentheses), convert to RPN. -/
def compile (exprText : String) (funcs : List CustomFunction) : Expression :=
  let text := String.mk (exprText.data.filter (· ≠ ' '))
  let tokens := getTokens text
  ⟨text, funcs, tokens, getRPN funcs tokens, checkParenthesis text⟩

/-- The one-argument `Expression` constructor (default function table). -/
def compileDefault (exprText : String) : Expression :=
  compile exprText defaultFunctions

/-- `Expression::eval()`: evaluate with the default variables. -/
def eval0 (e : Expression) : Val :=
  evalRPN e.functions e.rpn defaultVariables

/-- `Expression::eval(double)`: the default variables with `x` updated,
or `{"x", val}` appended when no default is named `x`. -/
def eval1 (e : Expression) (val : Val) : Val :=
  let vars := defaultVariables
  let updated := vars.any (fun v => v.name = "x")
  let vars' := vars.map (fun v => if v.name = "x" then ⟨v.name, val⟩ else v)
  evalRPN e.functions e.rpn (if updated then vars' else vars' ++ [⟨"x", val⟩])

/-- `Expression::eval(vector<Variable>)`: evaluate the cached RPN
against exactly the caller-supplied variable list. -/
def evalVars (e : Expression) (vars : List Variable) : Val :=
  evalRPN e.functions e.rpn vars

/-! ## Spec-side predicates

These definitions follow the wording of the specification (not the
source); the theorems below compare them with the source-derived
definitions above. -/

/-- The pop condition of §4.3 as the spec words it: `o2` is popped iff
it is not `(` and has strictly greater precedence than `o1`, or equal
precedence with `o1` left-associative. -/
def shouldPop (o1 o2 : String) : Bool :=
  o2 ≠ "(" ∧ (precedence o2 > precedence o1
    ∨ (precedence o2 = precedence o1 ∧ isLeftAssociative o1))

/-- The claim's structural-error condition, as the claim words it: some
left-to-right prefix holds more `)` than `(`, or the final counts
differ. -/
def specUnbalanced (cs : List Char) : Bool :=
  (List.range (cs.length + 1)).any
      (fun n => (cs.take n).count '(' < (cs.take n).count ')')
    ∨ cs.count '(' ≠ cs.count ')'

/-- Deleting every whitespace character (C `isspace`), as C8's claim
describes preprocessing. -/
def stripAllWS (s : String) : String :=
  String.mk (s.data.filter (fun c => ¬isSpaceChar c))

/-- Net parenthesis count of a character list. -/
def deltaSum (cs : List Char) : ℤ := (cs.map parenDelta).sum

/-- Deleting only the space character, as the constructor actually
does (`remove(text.begin(), text.end(), ' ')`). -/
def stripSpacesOnly (s : String) : String :=
  String.mk (s.data.filter (· ≠ ' '))

/-! ## Theorems for the claims -/

/-- **C4.** Unary negation `~` is distinct from binary subtraction `-`:
`"3-1"` evaluates to `2`, `"~3+1"` to `-2`, `"~(1+2)"` to `-3`, and
`"~pi"` (with the default variables) to the exact negation of the
stored default `pi` constant. -/
theorem unary_negation_vs_subtraction :
    eval0 (compileDefault "3-1") = Val.num 2
    ∧ eval0 (compileDefault "~3+1") = Val.num (-2)
    ∧ eval0 (compileDefault "~(1+2)") = Val.num (-3)
    ∧ eval0 (compileDefault "~pi") = Val.num (-piVal) :=
  ⟨by decide, by decide, by decide, by decide⟩

/-- **C3.** When the converter reads an operator `o1`, it pops exactly
the maximal top segment of stack operators `o2` satisfying the spec's
pop condition (`o2` is not `(`, and `o2` has strictly greater
precedence, or equal precedence with `o1` left-associative) — i.e.
`popOperators` is `takeWhile`/`dropWhile` of that condition.  `^` and
`~` are not left-associative, so exponentiation chains group
right-to-left: `"a^b^c"` converts to RPN `a b c ^ ^`, and `"2^3^2"`
evaluates to `512`, not `64`. -/
theorem shunting_yard_pop_condition :
    (∀ o1 ops, popOperators o1 ops
        = (ops.takeWhile (shouldPop o1), ops.dropWhile (shouldPop o1)))
    ∧ isLeftAssociative "^" = false
    ∧ isLeftAssociative "~" = false
    ∧ (compileDefault "a^b^c").rpn = ["a", "b", "c", "^", "^"]
    ∧ eval0 (compileDefault "2^3^2") = Val.num 512
    ∧ Val.num 512 ≠ Val.num 64 := by
  refine ⟨?_, by decide, by decide, by decide, by decide, by decide⟩
  intro o1 ops
  induction ops with
  | nil => rfl
  | cons o2 rest ih =>
      by_cases h : (o2 ≠ "(" ∧ (precedence o2 > precedence o1
          ∨ (precedence o2 = precedence o1 ∧ isLeftAssociative o1 = true)))
      · simp [popOperators, List.takeWhile_cons, List.dropWhile_cons, shouldPop, h, ih]
      · simp [popOperators, List.takeWhile_cons, List.dropWhile_cons, shouldPop, h]

/-- **C10.** During conversion every numeric literal is re-serialized
through `numberToString` (default `ostringstream` formatting: 6
significant digits), so literals with more than 6 significant digits
are rounded at compile time: `"1.0000001"` compiles to the single RPN
token `"1"` and evaluates to exactly `1`, although the parsed literal
value `10000001/10000000` differs from `1`. -/
theorem numeric_literal_reserialization :
    (∀ funcs token rest out ops q, getNumber token = some q →
        rpnGo funcs (token :: rest) out ops
          = rpnGo funcs rest (out ++ [numberToString (Val.num q)]) ops)
    ∧ (compileDefault "1.0000001").rpn = ["1"]
    ∧ eval0 (compileDefault "1.0000001") = Val.num 1
    ∧ getNumber "1.0000001" = some (10000001 / 10000000)
    ∧ ((10000001 : ℚ) / 10000000 ≠ 1) := by
  refine ⟨?_, by decide, by decide, by decide, by decide⟩
  intro funcs token rest out ops q h
  simp only [rpnGo, h]

/-- Witness for C10's general conjunct at the concrete literal `"2"`. -/
theorem numeric_literal_reserialization_witness :
    rpnGo defaultFunctions ["2"] [] []
      = rpnGo defaultFunctions [] ([] ++ [numberToString (Val.num 2)]) [] :=
  numeric_literal_reserialization.1 defaultFunctions "2" [] [] [] 2 (by decide)

/-- The five binary-operator strings, extracted from
`isBinaryOperator`. -/
theorem binaryOperator_cases {s : String} (h : isBinaryOperator s = true) :
    s = "+" ∨ s = "-" ∨ s = "*" ∨ s = "/" ∨ s = "^" :=
  of_decide_eq_true h

/-- **C5.** During RPN evaluation a binary operator with at least two
stacked values pops `b` (the top) then `a` and pushes
`calculate a b op` (i.e. `a OP b`); with fewer than two values the
operator is silently skipped — the value stack is unchanged, no error
is raised, and evaluation continues with the remaining tokens.  (The
function-table hypothesis reflects the dispatch order of the source:
the operator branch is reached only when the token is not a function
name.) -/
theorem binary_operator_stack_discipline (funcs : List CustomFunction)
    (vars : List Variable) (item : String) (rest : List String)
    (a b : Val) (vs : List Val)
    (hbin : isBinaryOperator item = true)
    (hfun : isFunction item funcs = none) :
    evalGo funcs vars (item :: rest) (b :: a :: vs)
      = evalGo funcs vars rest (calculate a b item :: vs)
    ∧ ∀ values : List Val, values.length < 2 →
        evalGo funcs vars (item :: rest) values = evalGo funcs vars rest values := by
  have hnum : getNumber item = none := by
    rcases binaryOperator_cases hbin with h | h | h | h | h <;> subst h <;> decide
  have hop : isOperator item = true := by
    rcases binaryOperator_cases hbin with h | h | h | h | h <;> subst h <;> decide
  constructor
  · simp [evalGo, evalStep, hnum, hfun, hop, hbin]
  · intro values hlen
    match values with
    | [] => simp [evalGo, evalStep, hnum, hfun, hop, hbin]
    | [v] => simp [evalGo, evalStep, hnum, hfun, hop, hbin]
    | _ :: _ :: _ => exact absurd hlen (by simp)

/-- Witness for C5 at `"-"` on the stack `[3, 5]` (top first): `5 - 3`. -/
theorem binary_operator_stack_discipline_witness :
    evalGo defaultFunctions [] ["-"] [Val.num 3, Val.num 5]
      = evalGo defaultFunctions [] [] [calculate (Val.num 5) (Val.num 3) "-"] :=
  (binary_operator_stack_discipline defaultFunctions [] "-" [] (Val.num 5)
    (Val.num 3) [] (by decide) rfl).1

/-- **C6.** During RPN evaluation a function-name token met while the
value stack is empty makes the whole evaluation return `NAN`
immediately — for every continuation of the RPN sequence — with no
exception; with a non-empty stack it pops one value, applies the
function and pushes the result.  (The numeric hypothesis reflects the
dispatch order of the source: the function branch is reached only when
the token does not parse as a number.) -/
theorem function_token_empty_stack (funcs : List CustomFunction)
    (vars : List Variable) (item : String) (f : Val → Val) (rest : List String)
    (hf : isFunction item funcs = some f)
    (hnum : getNumber item = none) :
    evalGo funcs vars (item :: rest) [] = Val.nan
    ∧ ∀ (v : Val) (vs : List Val),
        evalGo funcs vars (item :: rest) (v :: vs)
          = evalGo funcs vars rest (f v :: vs) := by
  constructor
  · simp [evalGo, evalStep, hnum, hf]
  · intro v vs
    simp [evalGo, evalStep, hnum, hf]

/-- Witness for C6 at the default function `"sin"` with an empty
stack. -/
theorem function_token_empty_stack_witness :
    evalGo defaultFunctions [] ["sin"] [] = Val.nan :=
  (function_token_empty_stack defaultFunctions [] "sin" vsin [] rfl (by decide)).1

/-- **C7.** For every RPN sequence and variable list whose pass over
the tokens completes (leaving the value stack `finalStack`), the
evaluator returns the popped top of the stack exactly when the stack
holds one value, and `NAN` in every other case (zero or several
values). -/
theorem rpn_result_iff_singleton (funcs : List CustomFunction)
    (vars : List Variable) (rpn : List String) (values finalStack : List Val)
    (h : runStack funcs vars rpn values = some finalStack) :
    evalGo funcs vars rpn values = finalResult finalStack := by
  induction rpn generalizing values with
  | nil =>
      simp only [runStack, Option.some.injEq] at h
      subst h
      rfl
  | cons item rest ih =>
      simp only [runStack] at h
      simp only [evalGo]
      cases hstep : evalStep funcs vars item values with
      | none => rw [hstep] at h; simp at h
      | some values' => rw [hstep] at h; exact ih values' h

/-- Witness for C7: the two-value final stack of the RPN sequence
`1 2` yields `NAN`. -/
theorem rpn_result_iff_singleton_witness :
    evalGo defaultFunctions [] ["1", "2"] [] = Val.nan :=
  rpn_result_iff_singleton defaultFunctions [] ["1", "2"] []
    [Val.num 2, Val.num 1] (by decide)

/-! ### String facts about the `~` concatenation -/

/-- Prepending `"~"` prepends `'~'` to the character data. -/
theorem tilde_append_data (s : String) : ("~" ++ s).data = '~' :: s.data := rfl

/-- `"~" ++ s` cannot equal a string not starting with `'~'`. -/
theorem tilde_append_ne_of_head (s t : String) (h : t.data.head? ≠ some '~') :
    "~" ++ s ≠ t := by
  intro he
  apply h
  rw [← he]
  rfl

/-- No string equals itself with `"~"` prepended. -/
theorem ne_tilde_append_self (s : String) : s ≠ "~" ++ s := by
  intro h
  have h2 := congrArg (fun t => t.data.length) h
  simp [tilde_append_data] at h2

/-- Prepending `"~"` is injective. -/
theorem tilde_append_inj {s t : String} (h : "~" ++ s = "~" ++ t) : s = t :=
  String.ext (List.cons_injective (congrArg String.data h))

/-- For nonempty `name`, the token `~name` is not an operator string. -/
theorem isOperator_tilde_append (name : String) (h : name ≠ "") :
    isOperator ("~" ++ name) = false := by
  unfold isOperator
  apply decide_eq_false
  rintro (h1 | h1 | h1 | h1 | h1 | h1) <;>
    first
      | · have h2 := congrArg String.data h1
          simp [tilde_append_data] at h2
      | · have h2 := congrArg String.data h1
          simp only [tilde_append_data] at h2
          exact h (@String.ext name "" (by simpa using h2))

/-- The variable-list scan misses a token matched by no entry. -/
theorem lookupVar_none_of_names (token : String) (vars : List Variable)
    (h : ∀ v ∈ vars, v.name ≠ token ∧ "~" ++ v.name ≠ token) :
    lookupVar token vars = none := by
  induction vars with
  | nil => rfl
  | cons v rest ih =>
      obtain ⟨h1, h2⟩ := h v (List.mem_cons_self v rest)
      simp only [lookupVar, if_neg h1, if_neg h2]
      exact ih fun w hw => h w (List.mem_cons_of_mem v hw)

/-- **C1 counterexample.** Evaluating the compiled `"pi"` with the
caller list `[{a, 1}]` (which contains no entry named `pi`) yields the
`NAN` sentinel — not the stored default value of `pi` the claim
promises. -/
theorem default_shadowing_counterexample :
    evalVars (compileDefault "pi") [⟨"a", Val.num 1⟩] = Val.nan
    ∧ Val.nan ≠ Val.num piVal :=
  ⟨by decide, by decide⟩

/-- **C1 (amended).** `eval(vector<Variable>)` resolves names against
exactly the caller-supplied list — the defaults `pi`/`e` are never
consulted there — so `"pi"` evaluated with any list containing no
entry named `pi` yields `NAN`; the defaults apply in the zero-argument
form, where `eval()` on `"pi"` yields the stored `pi` value. -/
theorem evalVars_uses_only_caller_list :
    (∀ vars : List Variable, (∀ v ∈ vars, v.name ≠ "pi") →
        evalVars (compileDefault "pi") vars = Val.nan)
    ∧ eval0 (compileDefault "pi") = Val.num piVal := by
  constructor
  · intro vars h
    show evalGo (compileDefault "pi").functions vars (compileDefault "pi").rpn [] = Val.nan
    rw [show (compileDefault "pi").rpn = ["pi"] from by decide]
    have hvar : isVariable "pi" vars = none := by
      unfold isVariable
      rw [show isOperator "pi" = false from by decide]
      simp only [Bool.false_eq_true, if_false]
      exact lookupVar_none_of_names "pi" vars fun v hv =>
        ⟨h v hv, tilde_append_ne_of_head v.name "pi" (by decide)⟩
    simp [evalGo, evalStep, hvar, show getNumber "pi" = none from by decide,
      show isFunction "pi" (compileDefault "pi").functions = none from rfl,
      show isOperator "pi" = false from by decide]
  · decide

/-- Witness for C1 (amended) at the caller list `[{b, 2}]`. -/
theorem evalVars_uses_only_caller_list_witness :
    evalVars (compileDefault "pi") [⟨"b", Val.num 2⟩] = Val.nan :=
  evalVars_uses_only_caller_list.1 [⟨"b", Val.num 2⟩] (by decide)

/-- **C9 counterexample.** The resolver scans the list in order and an
entry matching by literal name wins first: with
`vars = [{~a, 7}, {a, 3}]` — which does contain the entry `{a, 3}` —
the token `"~a"` resolves to `7`, not to the negation `-3` the claim
promises for every list containing `{a, 3}`. -/
theorem tilde_lookup_shadowing_counterexample :
    isVariable "~a" [⟨"~a", Val.num 7⟩, ⟨"a", Val.num 3⟩] = some (Val.num 7)
    ∧ some (Val.num 7) ≠ some (vmul (Val.num (-1)) (Val.num 3)) :=
  ⟨by decide, by decide⟩

/-- **C9 (amended).** For a variable list containing the entry
`{name, v}` with `name` nonempty, the resolver applied to the single
token `~name` succeeds with `-1.0 * v` provided no earlier entry
captures the token first (an earlier entry literally named `~name`, or
an earlier duplicate named `name`). -/
theorem tilde_concat_resolves_negated (name : String) (v : Val)
    (pre rest : List Variable)
    (hname : name ≠ "")
    (hpre : ∀ w ∈ pre, w.name ≠ name ∧ w.name ≠ "~" ++ name) :
    isVariable ("~" ++ name) (pre ++ ⟨name, v⟩ :: rest)
      = some (vmul (Val.num (-1)) v) := by
  unfold isVariable
  rw [isOperator_tilde_append name hname]
  simp only [Bool.false_eq_true, if_false]
  induction pre with
  | nil =>
      simp only [List.nil_append, lookupVar]
      rw [if_neg (ne_tilde_append_self name)]
      simp
  | cons w pre' ih =>
      obtain ⟨h1, h2⟩ := hpre w (List.mem_cons_self w pre')
      simp only [List.cons_append, lookupVar]
      rw [if_neg h2, if_neg fun hc => h1 (tilde_append_inj hc)]
      exact ih fun u hu => hpre u (List.mem_cons_of_mem w hu)

/-- Witness for C9 (amended): `~pi` against the single entry
`{pi, 3}`. -/
theorem tilde_concat_resolves_negated_witness :
    isVariable ("~" ++ "pi") ([] ++ ⟨"pi", Val.num 3⟩ :: [])
      = some (vmul (Val.num (-1)) (Val.num 3)) :=
  tilde_concat_resolves_negated "pi" (Val.num 3) [] [] (by decide) (by simp)

/-! ### Parenthesis-balance lemmas for C2 -/

theorem deltaSum_nil : deltaSum [] = 0 := rfl

theorem deltaSum_cons (c : Char) (l : List Char) :
    deltaSum (c :: l) = parenDelta c + deltaSum l := by
  simp [deltaSum]

/-- The net count is the difference of the `(` and `)` counts. -/
theorem deltaSum_eq_counts (cs : List Char) :
    deltaSum cs = (cs.count '(' : ℤ) - (cs.count ')' : ℤ) := by
  induction cs with
  | nil => rfl
  | cons c cs ih =>
      rw [deltaSum_cons, ih]
      rcases eq_or_ne c '(' with h1 | h1
      · subst h1
        rw [show parenDelta '(' = 1 from rfl, List.count_cons_self,
          List.count_cons_of_ne (by decide)]
        push_cast
        ring
      · rcases eq_or_ne c ')' with h2 | h2
        · subst h2
          rw [show parenDelta ')' = -1 from rfl, List.count_cons_self,
            List.count_cons_of_ne (by decide)]
          push_cast
          ring
        · rw [show parenDelta c = 0 from by simp [parenDelta, h1, h2],
            List.count_cons_of_ne h1.symm, List.count_cons_of_ne h2.symm]
          ring

/-- A scan started on a negative counter stops immediately. -/
theorem scanParen_neg (cs : List Char) {cnt : ℤ} (h : cnt < 0) :
    scanParen cnt cs = cnt := by
  cases cs with
  | nil => rfl
  | cons c cs => simp [scanParen, h]

/-- If no prefix drives the counter negative, the scan computes the
total net count. -/
theorem scanParen_eq_of_nonneg (cs : List Char) :
    ∀ cnt : ℤ, 0 ≤ cnt → (∀ n, 0 ≤ cnt + deltaSum (cs.take n)) →
      scanParen cnt cs = cnt + deltaSum cs := by
  induction cs with
  | nil => intro cnt _ _; simp [scanParen, deltaSum_nil]
  | cons c cs ih =>
      intro cnt h0 hpre
      rw [show scanParen cnt (c :: cs)
          = if cnt < 0 then cnt else scanParen (cnt + parenDelta c) cs from rfl,
        if_neg (not_lt.mpr h0)]
      have h1 : 0 ≤ cnt + parenDelta c := by
        have h2 := hpre 1
        simpa [deltaSum_cons, deltaSum_nil] using h2
      have h2 : ∀ n, 0 ≤ (cnt + parenDelta c) + deltaSum (cs.take n) := by
        intro n
        have h3 := hpre (n + 1)
        rw [List.take_succ_cons, deltaSum_cons] at h3
        omega
      rw [ih (cnt + parenDelta c) h1 h2, deltaSum_cons]
      ring

/-- If some prefix drives the counter negative, the scan ends
negative. -/
theorem scanParen_neg_of_bad (cs : List Char) :
    ∀ cnt : ℤ, 0 ≤ cnt → (∃ n, cnt + deltaSum (cs.take n) < 0) →
      scanParen cnt cs < 0 := by
  induction cs with
  | nil =>
      rintro cnt h0 ⟨n, hn⟩
      simp only [List.take_nil, deltaSum_nil, add_zero] at hn
      exact absurd hn (not_lt.mpr h0)
  | cons c cs ih =>
      rintro cnt h0 ⟨n, hn⟩
      rw [show scanParen cnt (c :: cs)
          = if cnt < 0 then cnt else scanParen (cnt + parenDelta c) cs from rfl,
        if_neg (not_lt.mpr h0)]
      match n with
      | 0 =>
          rw [List.take_zero, deltaSum_nil, add_zero] at hn
          exact absurd hn (not_lt.mpr h0)
      | m + 1 =>
          rw [List.take_succ_cons, deltaSum_cons] at hn
          rcases le_or_lt 0 (cnt + parenDelta c) with hc | hc
          · exact ih (cnt + parenDelta c) hc ⟨m, by omega⟩
          · rw [scanParen_neg cs hc]
            exact hc

/-- The claim's unbalance condition makes the source's scan end
nonzero. -/
theorem scan_ne_zero_of_specUnbalanced (cs : List Char)
    (h : specUnbalanced cs = true) : scanParen 0 cs ≠ 0 := by
  unfold specUnbalanced at h
  have h' := of_decide_eq_true h
  have bad_scan : (∃ n, (cs.take n).count '(' < (cs.take n).count ')') →
      scanParen 0 cs < 0 := by
    rintro ⟨n, hn⟩
    apply scanParen_neg_of_bad cs 0 le_rfl
    refine ⟨n, ?_⟩
    rw [deltaSum_eq_counts]
    omega
  rcases h' with hbad | hne
  · rw [List.any_eq_true] at hbad
    obtain ⟨n, _, hn⟩ := hbad
    have h2 := bad_scan ⟨n, of_decide_eq_true hn⟩
    omega
  · by_cases hb : ∃ n, (cs.take n).count '(' < (cs.take n).count ')'
    · have h2 := bad_scan hb
      omega
    · push_neg at hb
      have h2 : scanParen 0 cs = 0 + deltaSum cs := by
        apply scanParen_eq_of_nonneg cs 0 le_rfl
        intro n
        have h3 := hb n
        rw [deltaSum_eq_counts]
        omega
      rw [h2, deltaSum_eq_counts]
      omega

/-- Removing spaces does not change the parenthesis scan. -/
theorem scanParen_filter (cs : List Char) :
    ∀ cnt : ℤ, scanParen cnt (cs.filter (· ≠ ' ')) = scanParen cnt cs := by
  induction cs with
  | nil => intro _; rfl
  | cons c cs ih =>
      intro cnt
      rcases lt_or_le cnt 0 with h0 | h0
      · rw [scanParen_neg _ h0, scanParen_neg _ h0]
      · by_cases hc : c = ' '
        · subst hc
          rw [List.filter_cons_of_neg (by decide), ih,
            show scanParen cnt (' ' :: cs)
              = if cnt < 0 then cnt else scanParen (cnt + parenDelta ' ') cs from rfl,
            if_neg (not_lt.mpr h0), show parenDelta ' ' = 0 from rfl, add_zero]
        · rw [List.filter_cons_of_pos (by simpa using hc),
            show scanParen cnt (c :: cs.filter (· ≠ ' '))
              = if cnt < 0 then cnt
                else scanParen (cnt + parenDelta c) (cs.filter (· ≠ ' ')) from rfl,
            show scanParen cnt (c :: cs)
              = if cnt < 0 then cnt else scanParen (cnt + parenDelta c) cs from rfl,
            if_neg (not_lt.mpr h0), if_neg (not_lt.mpr h0), ih]

/-- **C2.** For every input text whose parentheses are unbalanced in
the claim's sense (some left-to-right prefix holds more `)` than `(`,
or the totals differ) and every function table, construction yields an
empty token sequence and an empty RPN sequence, and the zero-argument,
single-argument, and variable-list evaluation entry points all return
the `NAN` sentinel. -/
theorem unbalanced_parens_all_nan (text : String) (funcs : List CustomFunction)
    (h : specUnbalanced text.data = true) :
    (compile text funcs).tokens = []
    ∧ (compile text funcs).rpn = []
    ∧ eval0 (compile text funcs) = Val.nan
    ∧ (∀ val, eval1 (compile text funcs) val = Val.nan)
    ∧ (∀ vars, evalVars (compile text funcs) vars = Val.nan) := by
  have hscan : scanParen 0 (text.data.filter (· ≠ ' ')) ≠ 0 := by
    rw [scanParen_filter]
    exact scan_ne_zero_of_specUnbalanced text.data h
  have hbal : checkParenthesis (String.mk (text.data.filter (· ≠ ' '))) = false := by
    unfold checkParenthesis
    exact decide_eq_false hscan
  have htok : (compile text funcs).tokens = [] := by
    show getTokens (String.mk (text.data.filter (· ≠ ' '))) = []
    unfold getTokens
    rw [hbal]
    rfl
  have hrpn : (compile text funcs).rpn = [] := by
    show getRPN funcs (compile text funcs).tokens = []
    rw [htok]
    rfl
  refine ⟨htok, hrpn, ?_, ?_, ?_⟩
  · show evalRPN (compile text funcs).functions (compile text funcs).rpn defaultVariables = Val.nan
    rw [hrpn]
    rfl
  · intro val
    show evalRPN (compile text funcs).functions (compile text funcs).rpn _ = Val.nan
    rw [hrpn]
    rfl
  · intro vars
    show evalRPN (compile text funcs).functions (compile text funcs).rpn vars = Val.nan
    rw [hrpn]
    rfl

/-- Witness for C2 at the unbalanced text `")1+2("`. -/
theorem unbalanced_parens_all_nan_witness :
    eval1 (compile ")1+2(" defaultFunctions) (Val.num 5) = Val.nan :=
  (unbalanced_parens_all_nan ")1+2(" defaultFunctions (by decide)).2.2.2.1 (Val.num 5)

/-- **C8 counterexample.** Only the space character is stripped: the
tab in `"1\t+2"` survives, the token `"1\t"` fails numeric parsing and
is dropped as an unknown identifier, and the expression evaluates to
`2` — while the whitespace-deleted text `"1+2"` evaluates to `3`. -/
theorem whitespace_strip_counterexample :
    stripAllWS "1\t+2" = "1+2"
    ∧ eval0 (compileDefault "1\t+2") = Val.num 2
    ∧ eval0 (compileDefault "1+2") = Val.num 3
    ∧ Val.num 2 ≠ Val.num 3 :=
  ⟨by decide, by decide, by decide, by decide⟩

/-- **C8 (amended).** Preprocessing removes only the space character
`' '` (not tabs, newlines or other whitespace): compiling any text
gives exactly the same compiled expression — hence the same token
sequence, RPN sequence and evaluation results — as compiling the text
with every `' '` deleted. -/
theorem only_space_characters_removed (text : String) (funcs : List CustomFunction) :
    compile text funcs = compile (stripSpacesOnly text) funcs := by
  unfold compile stripSpacesOnly
  have h : ((String.mk (text.data.filter (· ≠ ' '))).data.filter (· ≠ ' '))
      = text.data.filter (· ≠ ' ') := by
    show (text.data.filter (· ≠ ' ')).filter (· ≠ ' ') = _
    rw [List.filter_filter]
    simp
  rw [h]

end ExprEval
